import Mathlib

/-!
Verification of the directory-bundling script `script.py`
(function `bundle_files` plus its `__main__` entry point).

The script walks a directory tree with `os.walk`, and for every file it
opens the file as UTF-8 text, writes a header line
`--- <relative path> ---\n`, writes the file's content, and writes the
separator `"\n\n"` to the output file (opened with mode `'w'`, hence
truncated). Any exception raised while handling one file is caught and
printed as `Could not read file <filepath>: <e>`, and the loop continues.

The shallow embedding below represents a walked file by the outcome of
the Python `open`/`read` calls on it, the output file handle by the
string written so far (starting from `""`, which models the `'w'`-mode
truncation), and `print` diagnostics by a list of strings.
-/

namespace BundlerSpec

/-- Outcome of `open(filepath, 'r', encoding='utf-8')` followed by
`infile.read()` on one file: both succeed yielding the decoded content,
or `open` itself raises (e.g. `PermissionError`, `FileNotFoundError`),
or `open` succeeds but `read` raises (e.g. `UnicodeDecodeError`);
the message models `str(e)` of the raised exception. -/
inductive ReadResult where
  | ok (content : String)
  | openFail (msg : String)
  | readFail (msg : String)
deriving DecidableEq, Repr

/-- One file discovered by the traversal: `path` is
`os.path.join(dirpath, filename)` and `relPath` is
`os.path.relpath(filepath, start_path)` (script.py lines 11-12),
together with the outcome of reading it. -/
structure FileEntry where
  path : String
  relPath : String
  res : ReadResult
deriving DecidableEq, Repr

/-- Body of the per-file `try`/`except` block (script.py lines 14-20),
acting on the state (output written so far, diagnostics printed so far).
On `ok`, the three `outfile.write` calls append the header line, the
content and `"\n\n"`. On `openFail`, the `with open(filepath...)` raises
before any write, so nothing is appended and the diagnostic is printed.
On `readFail`, the header write (line 16) has already happened when
`infile.read()` (line 17) raises, so exactly the header line is appended
and the diagnostic is printed. -/
def processFile (st : String × List String) (e : FileEntry) : String × List String :=
  match e.res with
  | .ok c => (st.1 ++ "--- " ++ e.relPath ++ " ---\n" ++ c ++ "\n\n", st.2)
  | .openFail m => (st.1, st.2 ++ ["Could not read file " ++ e.path ++ ": " ++ m])
  | .readFail m =>
      (st.1 ++ "--- " ++ e.relPath ++ " ---\n",
       st.2 ++ ["Could not read file " ++ e.path ++ ": " ++ m])

/-- The function `bundle_files(start_path, output_file)` (script.py
lines 3-20), given the sequence of files produced by
`os.walk(start_path)`. The output file is opened with mode `'w'`, so the
written string starts from `""` whatever the file held before; the
second component collects the printed diagnostics in order. -/
def bundle_files (entries : List FileEntry) : String × List String :=
  entries.foldl processFile ("", [])

/-- A node of the on-disk directory tree: a regular file (with the
outcome reading it would have), or a subdirectory that either can or
cannot be enumerated, with its children. -/
inductive DirTree where
  | file (name : String) (res : ReadResult)
  | dir (name : String) (readable : Bool) (children : List DirTree)

/-- The `FileEntry` produced for file `name` of the directory whose
path relative to `start_path` is `pfx` (`""` for the root, otherwise
ending in `"/"`): `os.path.join` yields `start ++ "/" ++ pfx ++ name`
and `os.path.relpath` yields `pfx ++ name` (POSIX separators). -/
def entryOf (start pfx name : String) (r : ReadResult) : FileEntry :=
  ⟨start ++ "/" ++ pfx ++ name, pfx ++ name, r⟩

/-- The regular files of one directory level, in order: the `filenames`
component of one `os.walk` triple. -/
def fileEntries (start pfx : String) : List DirTree → List FileEntry
  | [] => []
  | .file n r :: ts => entryOf start pfx n r :: fileEntries start pfx ts
  | .dir _ _ _ :: ts => fileEntries start pfx ts

/-- The entries contributed by the subdirectories of one level, in
`os.walk` top-down order (each readable subdirectory yields its own
files, then its subdirectories, recursively). A subdirectory whose
enumeration fails is skipped with no output: `os.walk` is called with
its default `onerror=None` (script.py line 9), which suppresses the
`OSError` raised by `scandir`. -/
def walkSubdirs (start pfx : String) : List DirTree → List FileEntry
  | [] => []
  | .file _ _ :: ts => walkSubdirs start pfx ts
  | .dir n true cs :: ts =>
      (fileEntries start (pfx ++ n ++ "/") cs ++ walkSubdirs start (pfx ++ n ++ "/") cs)
        ++ walkSubdirs start pfx ts
  | .dir _ false _ :: ts => walkSubdirs start pfx ts

/-- All entries yielded by `os.walk(start)` over a tree whose root
directory has the given children, in top-down order. -/
def walkList (start pfx : String) (ts : List DirTree) : List FileEntry :=
  fileEntries start pfx ts ++ walkSubdirs start pfx ts

/-- The filesystem and console state the script touches: whether the
source directory `'src'` exists and its children when it does, the
content of the output file `Code_Bundle.txt` (`none` if absent), and the
lines printed to stdout. -/
structure World where
  srcExists : Bool
  tree : List DirTree
  outputFile : Option String
  stdout : List String

/-- The entries `os.walk(start)` yields: the walk of the tree when the
directory exists, and nothing at all when it does not (with default
`onerror=None`, `os.walk` on a missing path raises nothing and yields
no triples). -/
def osWalk (isDir : Bool) (start : String) (t : List DirTree) : List FileEntry :=
  if isDir then walkList start "" t else []

/-- Effect on the world of one call `bundle_files('src', 'Code_Bundle.txt')`:
the output file is created/truncated and ends up holding the bundled
string, and the per-file diagnostics are printed. -/
def runBundle (w : World) : World :=
  let r := bundle_files (osWalk w.srcExists "src" w.tree)
  { w with outputFile := some r.1, stdout := w.stdout ++ r.2 }

/-- The `__main__` entry point (script.py lines 22-30): if `'src'` is a
directory, call `bundle_files` and print the success line; otherwise
print the error line and touch nothing else. -/
def mainEntry (w : World) : World :=
  if w.srcExists then
    let w2 := runBundle w
    { w2 with stdout := w2.stdout ++
        ["All files from 'src' have been bundled into 'Code_Bundle.txt'"] }
  else
    { w with stdout := w.stdout ++ ["Error: The directory 'src' does not exist."] }

/-! ### The record-format parser

Modelled from the spec: the script has no parser; the spec's round-trip
property defines one by "splitting on lines that begin with `--- ` and
end with ` ---`". The functions below split the output into lines at
every `'\n'`, treat each line that begins with `"--- "` and ends with
`" ---"` as a record header carrying the relative path between those
marks, give each record the lines up to the next header as content
(dropping the single blank line contributed by the `"\n\n"` separator),
and drop the empty final line segment produced by the output's
terminating newline. -/

/-- Splits a character list at every newline; always returns at least
one (possibly empty) segment, like splitting a string on a separator. -/
def nlSplit : List Char → List (List Char)
  | [] => [[]]
  | c :: cs =>
    if c = '\n' then [] :: nlSplit cs
    else
      match nlSplit cs with
      | [] => [[c]]
      | l :: ls => (c :: l) :: ls

/-- Joins line segments back with newlines: inverse of `nlSplit`. -/
def joinNl : List (List Char) → List Char
  | [] => []
  | [l] => l
  | l :: ls => l ++ '\n' :: joinNl ls

/-- Drops the final segment when it is empty (the artifact of a
trailing separator), leaving anything else unchanged. -/
def dropFinalBlank : List (List Char) → List (List Char)
  | [] => []
  | [[]] => []
  | [l] => [l]
  | l :: ls => l :: dropFinalBlank ls

/-- Tests whether a line begins with the four characters `"--- "`. -/
def beginsWithMark : List Char → Bool
  | '-' :: '-' :: '-' :: ' ' :: _ => true
  | _ => false

/-- Tests whether a line ends with the four characters `" ---"`. -/
def endsWithMark (l : List Char) : Bool :=
  match l.reverse with
  | '-' :: '-' :: '-' :: ' ' :: _ => true
  | _ => false

/-- Tests whether a line begins with `"--- "` and ends with `" ---"`:
the spec's criterion for a record header line. -/
def isHeader (l : List Char) : Bool :=
  beginsWithMark l && endsWithMark l

/-- The relative path carried by a header line: the characters strictly
between the `"--- "` and `" ---"` marks. -/
def pathOfHeader (l : List Char) : List Char :=
  (l.drop 4).take ((l.drop 4).length - 4)

/-- One pass over the line list: a header line starts a new record
(emitting the one being accumulated, if any), any other line extends
the current record's content, and lines before the first header are
ignored. Emitting a record drops the single trailing blank content line
contributed by the record separator and joins the rest with newlines. -/
def parseGo : List (List Char) → Option (List Char × List (List Char)) →
    List (List Char × List Char)
  | [], none => []
  | [], some (p, acc) => [(p, joinNl (dropFinalBlank acc))]
  | l :: ls, none =>
      if isHeader l then parseGo ls (some (pathOfHeader l, []))
      else parseGo ls none
  | l :: ls, some (p, acc) =>
      if isHeader l then
        (p, joinNl (dropFinalBlank acc)) :: parseGo ls (some (pathOfHeader l, []))
      else parseGo ls (some (p, acc ++ [l]))

/-- Parses a bundle back into its list of (relative path, content)
records, per the spec's split-on-header-lines description. -/
def parseBundle (out : String) : List (String × String) :=
  (parseGo (dropFinalBlank (nlSplit out.data)) none).map
    (fun pc => (⟨pc.1⟩, ⟨pc.2⟩))

/-- True exactly when reading the file succeeded. -/
def isOk : ReadResult → Bool
  | .ok _ => true
  | _ => false

/-- The content a successful read yielded (`""` for failures). -/
def okContent : ReadResult → String
  | .ok c => c
  | _ => ""

/-- The (relative path, content) pair a successfully read entry should
round-trip to. -/
def pairOf (e : FileEntry) : String × String :=
  (e.relPath, okContent e.res)

/-- The header line of a record for relative path `p`, as characters:
`"--- "` ++ `p` ++ `" ---"`. -/
def hlOf (p : List Char) : List Char :=
  '-' :: '-' :: '-' :: ' ' :: (p ++ [' ', '-', '-', '-'])

/-- The characters a successful or failed file contributes to the
output: a full record for `ok`, nothing for `openFail`, and the bare
header line for `readFail`. -/
def chunkData (e : FileEntry) : List Char :=
  match e.res with
  | .ok c => hlOf e.relPath.data ++ '\n' :: (c.data ++ ['\n', '\n'])
  | .openFail _ => []
  | .readFail _ => hlOf e.relPath.data ++ ['\n']

/-- The characters a list of walked files contributes to the output. -/
def chunksData : List FileEntry → List Char
  | [] => []
  | e :: es => chunkData e ++ chunksData es

/-- The diagnostic lines one file contributes. -/
def logChunk (e : FileEntry) : List String :=
  match e.res with
  | .ok _ => []
  | .openFail m => ["Could not read file " ++ e.path ++ ": " ++ m]
  | .readFail m => ["Could not read file " ++ e.path ++ ": " ++ m]

/-- The diagnostic lines a list of walked files contributes. -/
def logsOf : List FileEntry → List String
  | [] => []
  | e :: es => logChunk e ++ logsOf es

/-- The character stream of a sequence of well-formed records, one per
(relative path, content) pair. -/
def recData : List (String × String) → List Char
  | [] => []
  | pc :: ps => hlOf pc.1.data ++ '\n' :: (pc.2.data ++ '\n' :: '\n' :: recData ps)

/-! ### Lemmas about the line machinery -/

theorem nlSplit_ne_nil (s : List Char) : nlSplit s ≠ [] := by
  induction s with
  | nil => simp [nlSplit]
  | cons c cs ih =>
    by_cases hc : c = '\n'
    · simp [nlSplit, hc]
    · simp only [nlSplit, if_neg hc]
      cases h : nlSplit cs with
      | nil => simp
      | cons l ls => simp

theorem nlSplit_cons_ne (c : Char) (cs : List Char) (hc : ¬c = '\n') :
    nlSplit (c :: cs) = (c :: (nlSplit cs).headD []) :: (nlSplit cs).tail := by
  simp only [nlSplit, if_neg hc]
  cases h : nlSplit cs with
  | nil => exact absurd h (nlSplit_ne_nil cs)
  | cons l ls => rfl

theorem nlSplit_append (a b : List Char) :
    nlSplit (a ++ '\n' :: b) = nlSplit a ++ nlSplit b := by
  induction a with
  | nil => simp [nlSplit]
  | cons c cs ih =>
    by_cases hc : c = '\n'
    · simp [nlSplit, hc, ih]
    · rw [List.cons_append, nlSplit_cons_ne c _ hc, nlSplit_cons_ne c cs hc, ih]
      cases h : nlSplit cs with
      | nil => exact absurd h (nlSplit_ne_nil cs)
      | cons l ls => simp

theorem nlSplit_eq_single (l : List Char) (h : '\n' ∉ l) : nlSplit l = [l] := by
  induction l with
  | nil => rfl
  | cons c cs ih =>
    have hc : ¬(c = '\n') := by
      intro e
      exact h (by simp [e])
    have hcs : '\n' ∉ cs := fun m => h (List.mem_cons_of_mem _ m)
    simp [nlSplit, if_neg hc, ih hcs]

theorem joinNl_cons_head (c : Char) (l : List Char) (ls : List (List Char)) :
    joinNl ((c :: l) :: ls) = c :: joinNl (l :: ls) := by
  cases ls with
  | nil => rfl
  | cons l2 ls2 => rfl

theorem joinNl_nlSplit (s : List Char) : joinNl (nlSplit s) = s := by
  induction s with
  | nil => rfl
  | cons c cs ih =>
    by_cases hc : c = '\n'
    · subst hc
      simp only [nlSplit, eq_self_iff_true, if_true]
      cases h : nlSplit cs with
      | nil => exact absurd h (nlSplit_ne_nil cs)
      | cons l ls =>
        rw [h] at ih
        rw [show joinNl ([] :: l :: ls) = [] ++ '\n' :: joinNl (l :: ls) from rfl]
        rw [ih]
        rfl
    · rw [nlSplit_cons_ne c cs hc]
      cases h : nlSplit cs with
      | nil => exact absurd h (nlSplit_ne_nil cs)
      | cons l ls =>
        rw [h] at ih
        rw [show ((l :: ls).headD [] : List Char) = l from rfl,
          show (l :: ls).tail = ls from rfl, joinNl_cons_head, ih]

theorem dropFinalBlank_cons_of_ne (l : List Char) (xs : List (List Char))
    (h : xs ≠ []) : dropFinalBlank (l :: xs) = l :: dropFinalBlank xs := by
  cases xs with
  | nil => exact absurd rfl h
  | cons y ys =>
    cases l with
    | nil => rfl
    | cons a as => rfl

theorem dropFinalBlank_append (a b : List (List Char)) (hb : b ≠ []) :
    dropFinalBlank (a ++ b) = a ++ dropFinalBlank b := by
  induction a with
  | nil => simp
  | cons l ls ih =>
    have hne : ls ++ b ≠ [] := by
      simp [hb]
    rw [List.cons_append, dropFinalBlank_cons_of_ne l (ls ++ b) hne, ih]
    rfl

theorem dropFinalBlank_blank (a : List (List Char)) :
    dropFinalBlank (a ++ [[]]) = a := by
  rw [dropFinalBlank_append a [[]] (by simp)]
  simp [dropFinalBlank]

theorem isHeader_nil : isHeader [] = false := rfl

theorem isHeader_hlOf (p : List Char) : isHeader (hlOf p) = true := by
  simp only [isHeader, hlOf, Bool.and_eq_true]
  constructor
  · rfl
  · simp only [endsWithMark, List.reverse_cons, List.reverse_append, List.append_assoc]
    rfl

theorem pathOfHeader_hlOf (p : List Char) : pathOfHeader (hlOf p) = p := by
  simp only [pathOfHeader, hlOf]
  rw [show (('-' :: '-' :: '-' :: ' ' :: (p ++ [' ', '-', '-', '-'])).drop 4) =
      p ++ [' ', '-', '-', '-'] from rfl]
  simp only [List.length_append, List.length_cons, List.length_nil]
  rw [show p.length + (0 + 1 + 1 + 1 + 1) - 4 = p.length by omega]
  rw [show ([' ', '-', '-', '-'] : List Char) = [' ', '-', '-', '-'] from rfl]
  rw [List.take_left]

theorem hlOf_not_newline (p : List Char) (h : '\n' ∉ p) : '\n' ∉ hlOf p := by
  intro hm
  simp only [hlOf, List.mem_cons, List.mem_append] at hm
  rcases hm with h1 | h1 | h1 | h1 | h1 | h1
  · exact absurd h1 (by decide)
  · exact absurd h1 (by decide)
  · exact absurd h1 (by decide)
  · exact absurd h1 (by decide)
  · exact h h1
  · exact absurd h1 (by decide)

theorem parseGo_accum (ls rest : List (List Char)) (p : List Char)
    (acc : List (List Char)) (h : ∀ l ∈ ls, isHeader l = false) :
    parseGo (ls ++ rest) (some (p, acc)) = parseGo rest (some (p, acc ++ ls)) := by
  induction ls generalizing acc with
  | nil => simp
  | cons l ls ih =>
    have h1 : isHeader l = false := h l (by simp)
    rw [List.cons_append]
    simp only [parseGo, h1, Bool.false_eq_true, if_false]
    rw [ih (acc ++ [l]) (fun x hx => h x (by simp [hx]))]
    simp

theorem parseGo_emit (rest : List (List Char)) (p : List Char)
    (acc : List (List Char))
    (h : rest = [] ∨ ∃ l ls, rest = l :: ls ∧ isHeader l = true) :
    parseGo rest (some (p, acc)) =
      (p, joinNl (dropFinalBlank acc)) :: parseGo rest none := by
  rcases h with h | ⟨l, ls, rfl, hl⟩
  · subst h
    rfl
  · simp [parseGo, hl]

/-! ### The output stream of `bundle_files`, characterized -/

theorem data_mark1 : ("--- " : String).data = ['-', '-', '-', ' '] := rfl

theorem data_mark2 : (" ---\n" : String).data = [' ', '-', '-', '-', '\n'] := rfl

theorem data_sep : ("\n\n" : String).data = ['\n', '\n'] := rfl

theorem data_mark3 : (" ---" : String).data = [' ', '-', '-', '-'] := rfl

theorem data_nl : ("\n" : String).data = ['\n'] := rfl

theorem processFile_fst (st : String × List String) (e : FileEntry) :
    ((processFile st e).1).data = st.1.data ++ chunkData e := by
  rcases e with ⟨pa, rel, res⟩
  cases res with
  | ok c =>
    simp [processFile, chunkData, hlOf, String.data_append, data_mark1, data_mark2,
      data_sep, List.append_assoc]
  | openFail m => simp [processFile, chunkData]
  | readFail m =>
    simp [processFile, chunkData, hlOf, String.data_append, data_mark1, data_mark2,
      List.append_assoc]

theorem processFile_snd (st : String × List String) (e : FileEntry) :
    (processFile st e).2 = st.2 ++ logChunk e := by
  rcases e with ⟨pa, rel, res⟩
  cases res with
  | ok c => simp [processFile, logChunk]
  | openFail m => simp [processFile, logChunk]
  | readFail m => simp [processFile, logChunk]

theorem foldl_fst_data (entries : List FileEntry) :
    ∀ st : String × List String,
      ((entries.foldl processFile st).1).data = st.1.data ++ chunksData entries := by
  induction entries with
  | nil => intro st; simp [chunksData]
  | cons e es ih =>
    intro st
    rw [List.foldl_cons, ih (processFile st e), processFile_fst]
    simp [chunksData, List.append_assoc]

theorem foldl_snd (entries : List FileEntry) :
    ∀ st : String × List String,
      (entries.foldl processFile st).2 = st.2 ++ logsOf entries := by
  induction entries with
  | nil => intro st; simp [logsOf]
  | cons e es ih =>
    intro st
    rw [List.foldl_cons, ih (processFile st e), processFile_snd]
    simp [logsOf, List.append_assoc]

theorem chunksData_append (a b : List FileEntry) :
    chunksData (a ++ b) = chunksData a ++ chunksData b := by
  induction a with
  | nil => simp [chunksData]
  | cons e es ih => simp [chunksData, ih, List.append_assoc]

theorem logsOf_append (a b : List FileEntry) :
    logsOf (a ++ b) = logsOf a ++ logsOf b := by
  induction a with
  | nil => simp [logsOf]
  | cons e es ih => simp [logsOf, ih, List.append_assoc]

theorem bundle_files_fst_data (entries : List FileEntry) :
    ((bundle_files entries).1).data = chunksData entries := by
  rw [bundle_files, foldl_fst_data]
  rfl

theorem bundle_files_snd (entries : List FileEntry) :
    (bundle_files entries).2 = logsOf entries := by
  rw [bundle_files, foldl_snd]
  rfl

theorem chunksData_ok (entries : List FileEntry)
    (h : ∀ e ∈ entries, isOk e.res = true) :
    chunksData entries = recData (entries.map pairOf) := by
  induction entries with
  | nil => rfl
  | cons e es ih =>
    have he := h e (by simp)
    rcases e with ⟨pa, rel, res⟩
    cases res with
    | ok c =>
      rw [List.map_cons]
      simp only [chunksData, chunkData, recData, pairOf, okContent]
      rw [ih (fun x hx => h x (by simp [hx]))]
      simp [List.append_assoc]
    | openFail m => simp [isOk] at he
    | readFail m => simp [isOk] at he

/-! ### Round-trip of the record stream through the parser -/

theorem recData_lines (p c : String) (ps : List (String × String))
    (hp : '\n' ∉ p.data) :
    dropFinalBlank (nlSplit (recData ((p, c) :: ps))) =
      hlOf p.data :: (nlSplit c.data ++ dropFinalBlank ([] :: nlSplit (recData ps))) := by
  rw [show recData ((p, c) :: ps) =
      hlOf p.data ++ '\n' :: (c.data ++ '\n' :: ('\n' :: recData ps)) from rfl]
  rw [nlSplit_append, nlSplit_append, nlSplit_eq_single (hlOf p.data) (hlOf_not_newline p.data hp)]
  rw [show nlSplit ('\n' :: recData ps) = [] :: nlSplit (recData ps) from by
    simp [nlSplit]]
  rw [show ([hlOf p.data] ++ (nlSplit c.data ++ [] :: nlSplit (recData ps))) =
      ([hlOf p.data] ++ nlSplit c.data) ++ ([] :: nlSplit (recData ps)) from by
    simp [List.append_assoc]]
  rw [dropFinalBlank_append _ _ (by simp)]
  simp [List.append_assoc]

theorem parse_rec (ps : List (String × String))
    (h : ∀ pr ∈ ps, '\n' ∉ pr.1.data ∧ ∀ l ∈ nlSplit pr.2.data, isHeader l = false) :
    parseGo (dropFinalBlank (nlSplit (recData ps))) none =
      ps.map (fun pr => (pr.1.data, pr.2.data)) := by
  induction ps with
  | nil => rfl
  | cons pr ps ih =>
    rcases pr with ⟨p, c⟩
    have hp : '\n' ∉ p.data := (h (p, c) (by simp)).1
    have hc : ∀ l ∈ nlSplit c.data, isHeader l = false := (h (p, c) (by simp)).2
    rw [recData_lines p c ps hp]
    rw [show parseGo (hlOf p.data ::
          (nlSplit c.data ++ dropFinalBlank ([] :: nlSplit (recData ps)))) none =
        parseGo (nlSplit c.data ++ dropFinalBlank ([] :: nlSplit (recData ps)))
          (some (pathOfHeader (hlOf p.data), [])) from by
      simp [parseGo, isHeader_hlOf]]
    rw [pathOfHeader_hlOf]
    have hacc : ∀ l ∈ nlSplit c.data ++ [[]], isHeader l = false := by
      intro l hl
      rcases List.mem_append.mp hl with h1 | h1
      · exact hc l h1
      · simp at h1
        subst h1
        rfl
    cases ps with
    | nil =>
      rw [show dropFinalBlank (([] : List Char) :: nlSplit (recData [])) = [[]] from rfl]
      have hstep := parseGo_accum (nlSplit c.data ++ [[]]) [] p.data [] hacc
      rw [List.append_nil] at hstep
      rw [hstep]
      rw [show parseGo [] (some (p.data, [] ++ (nlSplit c.data ++ [[]]))) =
          [(p.data, joinNl (dropFinalBlank ([] ++ (nlSplit c.data ++ [[]]))))] from rfl]
      rw [List.nil_append, dropFinalBlank_blank, joinNl_nlSplit]
      rfl
    | cons pr2 ps2 =>
      rcases pr2 with ⟨p2, c2⟩
      have hp2 : '\n' ∉ p2.data := (h (p2, c2) (by simp)).1
      rw [show dropFinalBlank (([] : List Char) :: nlSplit (recData ((p2, c2) :: ps2))) =
          [] :: dropFinalBlank (nlSplit (recData ((p2, c2) :: ps2))) from
        dropFinalBlank_cons_of_ne [] _ (nlSplit_ne_nil _)]
      rw [recData_lines p2 c2 ps2 hp2]
      rw [show nlSplit c.data ++
            ([] :: (hlOf p2.data ::
              (nlSplit c2.data ++ dropFinalBlank ([] :: nlSplit (recData ps2))))) =
          (nlSplit c.data ++ [[]]) ++
            (hlOf p2.data ::
              (nlSplit c2.data ++ dropFinalBlank ([] :: nlSplit (recData ps2)))) from by
        simp [List.append_assoc]]
      rw [parseGo_accum _ _ _ _ hacc]
      rw [parseGo_emit _ _ _ (Or.inr ⟨hlOf p2.data, _, rfl, isHeader_hlOf p2.data⟩)]
      rw [List.nil_append, dropFinalBlank_blank, joinNl_nlSplit]
      rw [← recData_lines p2 c2 ps2 hp2]
      rw [ih (fun x hx => h x (by simp [hx]))]
      rfl

/-- Full round trip: parsing the bundle of successfully read files whose
relative paths contain no newline and whose contents contain no
header-like line recovers exactly the list of (relative path, content)
pairs, in traversal order. -/
theorem parse_bundle_of_ok (entries : List FileEntry)
    (hok : ∀ e ∈ entries, isOk e.res = true)
    (hpath : ∀ e ∈ entries, '\n' ∉ e.relPath.data)
    (hcont : ∀ e ∈ entries, ∀ l ∈ nlSplit (okContent e.res).data, isHeader l = false) :
    parseBundle (bundle_files entries).1 = entries.map pairOf := by
  rw [parseBundle, bundle_files_fst_data, chunksData_ok entries hok]
  rw [parse_rec (entries.map pairOf) ?hyp]
  case hyp =>
    intro pr hpr
    rcases List.mem_map.mp hpr with ⟨e, he, hpe⟩
    subst hpe
    exact ⟨hpath e he, hcont e he⟩
  rw [List.map_map]
  have hfun : ((fun pc : List Char × List Char => ((⟨pc.1⟩ : String), (⟨pc.2⟩ : String))) ∘
      (fun pr : String × String => (pr.1.data, pr.2.data))) = id := by
    funext pr
    rfl
  rw [hfun, List.map_id]

/-! ### Traversal lemmas -/

theorem fileEntries_append (start pfx : String) (a b : List DirTree) :
    fileEntries start pfx (a ++ b) = fileEntries start pfx a ++ fileEntries start pfx b := by
  induction a with
  | nil => simp [fileEntries]
  | cons t ts ih =>
    cases t with
    | file n r => simp [fileEntries, ih]
    | dir n rb cs => simp [fileEntries, ih]

theorem walkSubdirs_append (start pfx : String) (a b : List DirTree) :
    walkSubdirs start pfx (a ++ b) = walkSubdirs start pfx a ++ walkSubdirs start pfx b := by
  induction a with
  | nil => simp [walkSubdirs]
  | cons t ts ih =>
    cases t with
    | file n r => simp [walkSubdirs, ih]
    | dir n rb cs =>
      cases rb with
      | true => simp [walkSubdirs, ih, List.append_assoc]
      | false => simp [walkSubdirs, ih]

/-! ### The entry point, characterized -/

theorem mainEntry_of_src (w : World) (h : w.srcExists = true) :
    mainEntry w = { w with
      outputFile := some (bundle_files (walkList "src" "" w.tree)).1,
      stdout := w.stdout ++ (bundle_files (walkList "src" "" w.tree)).2 ++
        ["All files from 'src' have been bundled into 'Code_Bundle.txt'"] } := by
  simp only [mainEntry, runBundle, osWalk, h, if_true, List.append_assoc]

theorem mainEntry_of_missing (w : World) (h : w.srcExists = false) :
    mainEntry w = { w with
      stdout := w.stdout ++ ["Error: The directory 'src' does not exist."] } := by
  simp only [mainEntry, h, Bool.false_eq_true, if_false]

/-! ### The claims -/

/-- C1, counterexample: a file whose `open` succeeds but whose `read`
raises (a binary file, say) does leave bytes in the output — the bare
header line, a partial record — because the header is written (line 16)
before `infile.read()` (line 17) raises. The claim that the output
stream is exactly as it was before the failing file was attempted is
therefore false. -/
theorem c1_counterexample :
    (bundle_files [⟨"src/img.png", "img.png", ReadResult.readFail "invalid start byte"⟩]).1 ≠ "" ∧
    (bundle_files [⟨"src/img.png", "img.png", ReadResult.readFail "invalid start byte"⟩]).1 =
      "--- img.png ---\n" :=
  ⟨by decide, by decide⟩

/-- C1, amended: when `open` itself fails, nothing at all is written for
the file; when `open` succeeds and the read/decode fails, exactly the
header line (and nothing else) is written, leaving a partial record of
just a header; a complete record (header line, content, blank-line
separator) is written exactly for the successfully read files. -/
theorem c1_amended (xs ys : List FileEntry) (pa rel m c : String) :
    (bundle_files (xs ++ ⟨pa, rel, ReadResult.openFail m⟩ :: ys)).1 =
      (bundle_files xs).1 ++ (bundle_files ys).1 ∧
    (bundle_files (xs ++ ⟨pa, rel, ReadResult.readFail m⟩ :: ys)).1 =
      (bundle_files xs).1 ++ ("--- " ++ rel ++ " ---" ++ "\n") ++ (bundle_files ys).1 ∧
    (bundle_files (xs ++ ⟨pa, rel, ReadResult.ok c⟩ :: ys)).1 =
      (bundle_files xs).1 ++ ("--- " ++ rel ++ " ---" ++ "\n" ++ c ++ "\n" ++ "\n") ++
        (bundle_files ys).1 := by
  refine ⟨?_, ?_, ?_⟩ <;>
    · apply String.ext
      simp [bundle_files_fst_data, chunksData_append, chunksData, chunkData, hlOf,
        String.data_append, data_mark1, data_mark2, data_mark3, data_sep, data_nl,
        List.append_assoc]

/-- C2, counterexample: for a tree whose single UTF-8 file `a.txt` has
content `"--- x ---"`, the parse of the bundle contains the record
`("x", "")`, which is not a (relative path, content) pair of the tree:
the recovered set does not equal the tree's set, so the claim as stated
(for all trees of decodable files) is false. -/
theorem c2_counterexample :
    ("x", "") ∈ parseBundle (bundle_files (walkList "src" ""
        [DirTree.file "a.txt" (ReadResult.ok "--- x ---")])).1 ∧
    ("x", "") ∉ (walkList "src" ""
        [DirTree.file "a.txt" (ReadResult.ok "--- x ---")]).map pairOf := by
  constructor <;>
    · simp only [walkList, fileEntries, walkSubdirs, entryOf]
      decide

/-- C2, amended: for every tree of successfully decodable files whose
relative paths contain no newline and whose contents contain no line
that both begins with `--- ` and ends with ` ---`, bundling the walked
files in any order yields an output whose parse has exactly one record
per file and recovers, up to reordering, exactly the (relative path,
content) pairs of the tree — independent of the traversal order. -/
theorem c2_amended (t : List DirTree) (entries2 : List FileEntry)
    (hperm : entries2.Perm (walkList "src" "" t))
    (hok : ∀ e ∈ walkList "src" "" t, isOk e.res = true)
    (hpath : ∀ e ∈ walkList "src" "" t, '\n' ∉ e.relPath.data)
    (hcont : ∀ e ∈ walkList "src" "" t,
      ∀ l ∈ nlSplit (okContent e.res).data, isHeader l = false) :
    (parseBundle (bundle_files entries2).1).Perm ((walkList "src" "" t).map pairOf) ∧
    (parseBundle (bundle_files entries2).1).length = (walkList "src" "" t).length := by
  have hmem : ∀ e ∈ entries2, e ∈ walkList "src" "" t :=
    fun e he => (hperm.mem_iff).mp he
  have h1 : parseBundle (bundle_files entries2).1 = entries2.map pairOf :=
    parse_bundle_of_ok entries2 (fun e he => hok e (hmem e he))
      (fun e he => hpath e (hmem e he)) (fun e he => hcont e (hmem e he))
  rw [h1]
  constructor
  · exact hperm.map pairOf
  · rw [List.length_map]
    exact hperm.length_eq

/-- C2, witness: the spec's concrete scenario — `a.txt` with `"hello"`
and `sub/b.txt` with `"world\n"` — bundled with the two files visited in
the reverse of the walk order still parses back to the tree's pairs. -/
theorem c2_witness :
    (parseBundle (bundle_files [⟨"src/sub/b.txt", "sub/b.txt", ReadResult.ok "world\n"⟩,
        ⟨"src/a.txt", "a.txt", ReadResult.ok "hello"⟩]).1).Perm
      ((walkList "src" "" [DirTree.file "a.txt" (ReadResult.ok "hello"),
        DirTree.dir "sub" true [DirTree.file "b.txt" (ReadResult.ok "world\n")]]).map pairOf) ∧
    (parseBundle (bundle_files [⟨"src/sub/b.txt", "sub/b.txt", ReadResult.ok "world\n"⟩,
        ⟨"src/a.txt", "a.txt", ReadResult.ok "hello"⟩]).1).length =
      (walkList "src" "" [DirTree.file "a.txt" (ReadResult.ok "hello"),
        DirTree.dir "sub" true [DirTree.file "b.txt" (ReadResult.ok "world\n")]]).length :=
  c2_amended _ _
    (by simp only [walkList, fileEntries, walkSubdirs, entryOf]; decide)
    (by simp only [walkList, fileEntries, walkSubdirs, entryOf]; decide)
    (by simp only [walkList, fileEntries, walkSubdirs, entryOf]; decide)
    (by simp only [walkList, fileEntries, walkSubdirs, entryOf]; decide)

/-- C3: when the source directory does not exist, the entry point only
prints the error line naming `'src'`: the output file (whatever a prior
run left there) and the tree are untouched, and no traversal output or
diagnostic of any kind is produced. -/
theorem c3_missing_source (w : World) (h : w.srcExists = false) :
    mainEntry w =
      { w with stdout := w.stdout ++ ["Error: The directory 'src' does not exist."] } ∧
    (mainEntry w).outputFile = w.outputFile ∧
    (mainEntry w).tree = w.tree := by
  have e1 := mainEntry_of_missing w h
  exact ⟨e1, by rw [e1], by rw [e1]⟩

/-- C3, witness: a world with no `src` directory and a leftover output
file from a prior run. -/
theorem c3_witness :
    mainEntry ⟨false, [], some "old bundle", []⟩ =
      ⟨false, [], some "old bundle", ["Error: The directory 'src' does not exist."]⟩ ∧
    (mainEntry ⟨false, [], some "old bundle", []⟩).outputFile = some "old bundle" ∧
    (mainEntry ⟨false, [], some "old bundle", []⟩).tree = [] :=
  c3_missing_source ⟨false, [], some "old bundle", []⟩ rfl

/-- C4, counterexample: a successfully bundled file whose content is
itself a header-like line (`"--- q ---"`) is not recovered by the
split-on-header-lines parse: its original (path, content) pair is absent
from the parse, which instead yields two empty-content records. The
round-trip claim over arbitrary file contents is therefore false. -/
theorem c4_counterexample :
    ("n.txt", "--- q ---") ∉
      parseBundle (bundle_files [⟨"src/n.txt", "n.txt", ReadResult.ok "--- q ---"⟩]).1 ∧
    parseBundle (bundle_files [⟨"src/n.txt", "n.txt", ReadResult.ok "--- q ---"⟩]).1 =
      [("n.txt", ""), ("q", "")] :=
  ⟨by decide, by decide⟩

/-- C4, amended: for bundles of successfully read files whose relative
paths contain no newline and whose contents contain no line that both
begins with `--- ` and ends with ` ---`, parsing the output recovers
every file's original relative path and exact original content, in
order. -/
theorem c4_amended (entries : List FileEntry)
    (hok : ∀ e ∈ entries, isOk e.res = true)
    (hpath : ∀ e ∈ entries, '\n' ∉ e.relPath.data)
    (hcont : ∀ e ∈ entries, ∀ l ∈ nlSplit (okContent e.res).data, isHeader l = false) :
    parseBundle (bundle_files entries).1 = entries.map pairOf :=
  parse_bundle_of_ok entries hok hpath hcont

/-- C4, witness: a two-record bundle round-trips, content with embedded
newline included. -/
theorem c4_witness :
    parseBundle (bundle_files [⟨"src/a.txt", "a.txt", ReadResult.ok "hello"⟩,
        ⟨"src/sub/b.txt", "sub/b.txt", ReadResult.ok "world\n"⟩]).1 =
      [("a.txt", "hello"), ("sub/b.txt", "world\n")] := by
  have h := c4_amended [⟨"src/a.txt", "a.txt", ReadResult.ok "hello"⟩,
      ⟨"src/sub/b.txt", "sub/b.txt", ReadResult.ok "world\n"⟩]
    (by decide) (by decide) (by decide)
  rw [h]
  decide

/-- C5, counterexample: a file that fails mid-read is not absent from
the output's record set — the orphan header the code already wrote
parses as a record for that file with empty content. -/
theorem c5_counterexample :
    ("bad.bin", "") ∈
      parseBundle (bundle_files [⟨"src/bad.bin", "bad.bin", ReadResult.readFail "err"⟩]).1 := by
  decide

/-- C5, amended: a per-file failure is non-fatal — the diagnostic
`Could not read file <path>: <cause>` is printed in place and every
other file's contribution still appears before and after it. A file
whose `open` fails contributes nothing to the output (it is absent from
the record set); a file that fails during read leaves its bare header
line instead (parsed as an empty-content record). -/
theorem c5_amended (xs ys : List FileEntry) (pa rel m : String) :
    (bundle_files (xs ++ ⟨pa, rel, ReadResult.openFail m⟩ :: ys)).2 =
      (bundle_files xs).2 ++ ("Could not read file " ++ pa ++ ": " ++ m) ::
        (bundle_files ys).2 ∧
    (bundle_files (xs ++ ⟨pa, rel, ReadResult.readFail m⟩ :: ys)).2 =
      (bundle_files xs).2 ++ ("Could not read file " ++ pa ++ ": " ++ m) ::
        (bundle_files ys).2 ∧
    (bundle_files (xs ++ ⟨pa, rel, ReadResult.openFail m⟩ :: ys)).1 =
      (bundle_files (xs ++ ys)).1 := by
  refine ⟨?_, ?_, ?_⟩
  · simp [bundle_files_snd, logsOf_append, logsOf, logChunk]
  · simp [bundle_files_snd, logsOf_append, logsOf, logChunk]
  · apply String.ext
    simp [bundle_files_fst_data, chunksData_append, chunksData, chunkData]

/-- C6: for a successfully read file the bytes appended to the output
are exactly the header `--- ` + relative path + ` ---` + one newline,
then the file's content verbatim, then exactly two newline characters;
no diagnostic is printed for it. -/
theorem c6_record_bytes (xs : List FileEntry) (pa rel c : String) :
    bundle_files (xs ++ [⟨pa, rel, ReadResult.ok c⟩]) =
      ((bundle_files xs).1 ++ ("--- " ++ rel ++ " ---" ++ "\n" ++ c ++ "\n" ++ "\n"),
       (bundle_files xs).2) := by
  refine Prod.ext ?_ ?_
  · apply String.ext
    simp [bundle_files_fst_data, chunksData_append, chunksData, chunkData, hlOf,
      String.data_append, data_mark1, data_mark2, data_mark3, data_sep, data_nl,
      List.append_assoc]
  · simp [bundle_files_snd, logsOf_append, logsOf, logChunk]

/-- C7: running the program twice on an unchanged tree produces
byte-identical output files — the run is a pure function of the tree
and the (deterministic) walk order, and the first run changes neither
the source tree nor the walk. -/
theorem c7_run_twice (w : World) (h : w.srcExists = true) :
    (mainEntry (mainEntry w)).outputFile = (mainEntry w).outputFile := by
  have e1 := mainEntry_of_src w h
  have h2 : (mainEntry w).srcExists = true := by
    rw [e1]
    exact h
  have e2 := mainEntry_of_src (mainEntry w) h2
  rw [e2, e1]

/-- C7, witness: two runs over a one-file tree agree. -/
theorem c7_witness :
    (mainEntry (mainEntry ⟨true, [DirTree.file "a.txt" (ReadResult.ok "hello")],
        none, []⟩)).outputFile =
      (mainEntry ⟨true, [DirTree.file "a.txt" (ReadResult.ok "hello")],
        none, []⟩).outputFile :=
  c7_run_twice ⟨true, [DirTree.file "a.txt" (ReadResult.ok "hello")], none, []⟩ rfl

/-- C8: when the run proceeds, the output file ends up holding exactly
the bundle of the walked tree — an expression independent of whatever
the output file held before — and nothing else in the filesystem state
(the tree, the directory's existence) is modified. -/
theorem c8_truncated_fresh (w : World) (h : w.srcExists = true) :
    (mainEntry w).outputFile = some (bundle_files (walkList "src" "" w.tree)).1 ∧
    (∀ prior : Option String,
      (mainEntry { w with outputFile := prior }).outputFile = (mainEntry w).outputFile) ∧
    (mainEntry w).tree = w.tree ∧
    (mainEntry w).srcExists = w.srcExists := by
  have e1 := mainEntry_of_src w h
  refine ⟨by rw [e1], ?_, by rw [e1], by rw [e1]⟩
  intro prior
  have e2 := mainEntry_of_src { w with outputFile := prior } h
  rw [e2, e1]

/-- C8, witness: a world whose output file holds stale content from an
earlier run. -/
theorem c8_witness :
    (mainEntry ⟨true, [DirTree.file "a.txt" (ReadResult.ok "hi")],
        some "stale", []⟩).outputFile =
      some (bundle_files (walkList "src" ""
        [DirTree.file "a.txt" (ReadResult.ok "hi")])).1 ∧
    (∀ prior : Option String,
      (mainEntry ⟨true, [DirTree.file "a.txt" (ReadResult.ok "hi")],
          prior, []⟩).outputFile =
        (mainEntry ⟨true, [DirTree.file "a.txt" (ReadResult.ok "hi")],
          some "stale", []⟩).outputFile) ∧
    (mainEntry ⟨true, [DirTree.file "a.txt" (ReadResult.ok "hi")],
        some "stale", []⟩).tree = [DirTree.file "a.txt" (ReadResult.ok "hi")] ∧
    (mainEntry ⟨true, [DirTree.file "a.txt" (ReadResult.ok "hi")],
        some "stale", []⟩).srcExists = true :=
  c8_truncated_fresh ⟨true, [DirTree.file "a.txt" (ReadResult.ok "hi")], some "stale", []⟩ rfl

/-- C9: calling `bundle_files` directly with a `start_path` that is not
an existing directory bypasses the `__main__` guard: the output file is
still created (truncated) and left empty, no diagnostic is printed, and
the call returns normally, because `os.walk` on a missing path yields
nothing. -/
theorem c9_direct_call (w : World) (h : w.srcExists = false) :
    runBundle w = { w with outputFile := some "" } := by
  rcases w with ⟨se, tr, o, so⟩
  simp only at h
  subst h
  simp [runBundle, osWalk, bundle_files]

/-- C9, witness: a direct call over a missing directory truncates a
leftover output file to empty and prints nothing. -/
theorem c9_witness :
    runBundle ⟨false, [DirTree.file "a.txt" (ReadResult.ok "hi")], some "leftover", []⟩ =
      ⟨false, [DirTree.file "a.txt" (ReadResult.ok "hi")], some "", []⟩ :=
  c9_direct_call ⟨false, [DirTree.file "a.txt" (ReadResult.ok "hi")], some "leftover", []⟩ rfl

/-- C10: a subdirectory that cannot be enumerated is skipped silently —
the walk, the bundled output and the printed diagnostics are exactly
those of the same tree without that subdirectory, so every file beneath
it is absent and no diagnostic mentions the directory or its files. -/
theorem c10_unreadable_subdir (start pfx n : String) (cs pre post : List DirTree) :
    walkList start pfx (pre ++ DirTree.dir n false cs :: post) =
      walkList start pfx (pre ++ post) ∧
    bundle_files (walkList start pfx (pre ++ DirTree.dir n false cs :: post)) =
      bundle_files (walkList start pfx (pre ++ post)) := by
  have h1 : walkList start pfx (pre ++ DirTree.dir n false cs :: post) =
      walkList start pfx (pre ++ post) := by
    rw [walkList, walkList, fileEntries_append, fileEntries_append,
      walkSubdirs_append, walkSubdirs_append]
    simp only [fileEntries, walkSubdirs]
  exact ⟨h1, by rw [h1]⟩

end BundlerSpec
